import Mathlib

/-!
Shallow embedding of the WaveQ-api request-lifecycle subsystem.

Sources embedded here:
* `src/models.py`   — the `APIRequest` row (data columns; the autoincrement
  primary key and the two wall-clock timestamp columns are not modelled,
  real time being outside the embedding).
* `src/crud.py`     — `create_request`, `update_request_status`, `get_request`.
* `src/api_gateway.py` — the MQTT status listener
  (`MCPClient.listen_status_updates`), `cancel_request`, `submit_audio_edit`,
  and the operation catalog of `get_supported_operations`.
* `src/audio_agent_library.py` — `AudioAgent`: the natural-language resolver
  (`parse_natural_language`, `_extract_parameters`, the regex pattern family)
  and the chain planner (`generate_operation_chain`, `operation_order`).
* `src/mcp_audio_server.py` — the worker loop
  (`process_single_request`, `execute_audio_operation`, `process_operations`).

Python floats are modelled as exact rationals (`Rat`); the claims settled
here never depend on IEEE rounding.  Python dicts whose key set is fixed are
modelled as structures, parameter dicts as association lists in insertion
order.  Exceptions are modelled with `Except String`.
-/

/-- JSON values, modelling the payloads that `json.dumps` serialises in
`crud._dump` and in the MQTT messages. -/
inductive JsonVal where
  | jnull : JsonVal
  | jbool (b : Bool) : JsonVal
  | jstr (s : String) : JsonVal
  | jnum (q : Rat) : JsonVal
  | jarr (elems : List JsonVal) : JsonVal
  | jobj (fields : List (String × JsonVal)) : JsonVal

mutual

/-- Model of `json.dumps` (`crud._dump` on a non-None value).  The exact
rendering of numbers is a modelling choice; the claims only use that a
stored `result`/`payload` column holds the serialised text of the value. -/
def dumpJson : JsonVal → String
  | .jnull => "null"
  | .jbool b => if b then "true" else "false"
  | .jstr s => "\"" ++ s ++ "\""
  | .jnum q => toString q.num ++ (if q.den = 1 then "" else "." ++ toString q.den)
  | .jarr xs => "[" ++ dumpJsonList xs ++ "]"
  | .jobj fs => "\x7b" ++ dumpJsonFields fs ++ "\x7d"

def dumpJsonList : List JsonVal → String
  | [] => ""
  | [x] => dumpJson x
  | x :: y :: xs => dumpJson x ++ ", " ++ dumpJsonList (y :: xs)

def dumpJsonFields : List (String × JsonVal) → String
  | [] => ""
  | [(k, v)] => "\"" ++ k ++ "\": " ++ dumpJson v
  | (k, v) :: y :: xs => "\"" ++ k ++ "\": " ++ dumpJson v ++ ", " ++ dumpJsonFields (y :: xs)

end

/-- One row of the `api_requests` table (`models.APIRequest`).  The integer
primary key and the `submitted_at` / `updated_at` timestamp columns are
omitted: they carry wall-clock time, which the claims do not touch. -/
structure APIRequest where
  request_id : String
  status : String
  file_path : Option String
  payload : Option String
  client_id : Option String
  progress : Option Rat
  result : Option String
deriving DecidableEq

/-- The request table.  `request_id` carries a UNIQUE constraint in
`models.py`; rows are listed in insertion order. -/
abbrev Store : Type := List APIRequest

/-- The keyword arguments that callers of `crud.update_request_status` pass
(`**fields`).  `none` models an absent-or-None keyword, which the function
skips.  These are exactly the field names used by the callers in the
repository; every one exists on `APIRequest`, so the `hasattr` test in
`crud.py` is always true for them. -/
structure UpdateFields where
  status : Option String := none
  progress : Option Rat := none
  result : Option JsonVal := none
  payload : Option JsonVal := none
  file_path : Option String := none
  client_id : Option String := none

/-- The `for key, value in fields.items()` loop of `crud.update_request_status`:
a None value (or a missing keyword) leaves the column unchanged, a present
value overwrites it; `payload` and `result` are serialised through
`crud._dump` first. -/
def applyFields (r : APIRequest) (f : UpdateFields) : APIRequest :=
  { r with
    status := match f.status with
      | some s => s
      | none => r.status
    progress := match f.progress with
      | some p => some p
      | none => r.progress
    result := match f.result with
      | some v => some (dumpJson v)
      | none => r.result
    payload := match f.payload with
      | some v => some (dumpJson v)
      | none => r.payload
    file_path := match f.file_path with
      | some p => some p
      | none => r.file_path
    client_id := match f.client_id with
      | some c => some c
      | none => r.client_id }

/-- `crud.get_request`: `select(APIRequest).filter_by(request_id=...)` with
`scalar_one_or_none` (the UNIQUE constraint makes the first match the only
one). -/
def get_request (db : Store) (rid : String) : Option APIRequest :=
  List.find? (fun r => r.request_id == rid) db

/-- `crud.update_request_status`: look the row up by `request_id`; if absent
return None and leave the table alone, otherwise overwrite the non-None
fields and return the refreshed row. -/
def update_request_status : Store → String → UpdateFields → Option APIRequest × Store
  | [], _, _ => (none, [])
  | r :: rest, rid, f =>
    if r.request_id == rid then
      (some (applyFields r f), applyFields r f :: rest)
    else
      ((update_request_status rest rid f).1, r :: (update_request_status rest rid f).2)

/-- `crud.create_request`: insert a fresh row (payload serialised through
`_dump`) and return it. -/
def create_request (db : Store) (rid : String) (status : String)
    (file_path : Option String) (payload : Option JsonVal)
    (client_id : Option String) : APIRequest × Store :=
  let row : APIRequest :=
    { request_id := rid
      status := status
      file_path := file_path
      payload := payload.map dumpJson
      client_id := client_id
      progress := none
      result := none }
  (row, db ++ [row])

/-- The JSON body of one message on the `audio/status/#` feed, as consumed by
`MCPClient.listen_status_updates` in `api_gateway.py`: every field is read
with `payload.get(...)`, so each may be absent. -/
structure MqttStatusPayload where
  request_id : Option String := none
  status : Option String := none
  progress : Option Rat := none
  result : Option JsonVal := none

/-- One iteration of `MCPClient.listen_status_updates` on a decoded status
message: when the payload carries a truthy `request_id`, call
`update_request_status(db, req_id, status=payload.get("status", "unknown"),
progress=payload.get("progress"), result=payload.get("result"))`.
A falsy `request_id` (absent or the empty string) is a no-op. -/
def listen_status_update (db : Store) (p : MqttStatusPayload) : Store :=
  match p.request_id with
  | some rid =>
    if rid ≠ "" then
      (update_request_status db rid
        { status := some ((p.status).getD ("unknown"))
          progress := p.progress
          result := p.result }).2
    else db
  | none => db

/-- The `"completed"/"failed"/"cancelled"` list that `cancel_request` in
`api_gateway.py` treats as non-cancellable (the spec's terminal states). -/
def terminalStatuses : List String := ["completed", "failed", "cancelled"]

/-- An HTTP error response: `HTTPException(status_code, detail)`. -/
structure HttpError where
  code : Nat
  detail : String
deriving DecidableEq

/-- `DELETE /api/audio/requests/{request_id}` (`api_gateway.cancel_request`):
404 when the row is absent; 400 when the stored status is already
completed/failed/cancelled; otherwise write status `"cancelled"` through
`update_request_status`.  The best-effort `os.remove` of the upload file is a
filesystem side effect outside the store and is not modelled. -/
def cancel_request (db : Store) (rid : String) : Except HttpError String × Store :=
  match get_request db rid with
  | none => (.error ⟨404, "Request not found"⟩, db)
  | some req =>
    if terminalStatuses.contains req.status then
      (.error ⟨400, "Cannot cancel completed/failed request"⟩, db)
    else
      (.ok "Request cancelled successfully",
        (update_request_status db rid { status := some ("cancelled") }).2)

/-- The keys of the static dictionary returned by
`GET /api/audio/operations` (`api_gateway.get_supported_operations`), in
source order — the gateway's Operation Catalog. -/
def gatewayOperationNames : List String :=
  ["trim", "normalize", "fade_in", "fade_out", "change_speed", "change_pitch",
   "time_stretch_torch", "add_reverb", "noise_reduction", "equalize",
   "compress", "voice_activity_detection", "merge", "split", "convert_format"]

/-- `POST /api/audio/edit` (`api_gateway.submit_audio_edit`), after the form
has parsed: reject with 400 `"Unsupported operation"` when the single
requested operation is not a key of the catalog — this check runs before
`create_request`, so a rejected submission leaves the table untouched.
Otherwise create the row with status `"submitted"` and publish to MQTT; a
failed publish raises 500 after the row was created.  The fresh
`uuid.uuid4()` and the uploaded file's path arrive as parameters
(`rid`, `file_path`); `publish_ok` is the outcome of the external
`mcp_client.publish_request`. -/
def submit_audio_edit (db : Store) (rid : String) (operation : String)
    (parameters : List (String × JsonVal)) (file_path : String)
    (client_id : Option String) (publish_ok : Bool) :
    Except HttpError (String × String) × Store :=
  if gatewayOperationNames.contains operation then
    let payload : JsonVal := .jobj
      [("request_id", .jstr rid),
       ("operations", .jarr [.jobj [("operation", .jstr operation),
                                    ("parameters", .jobj parameters)]]),
       ("audio_path", .jstr file_path),
       ("client_id", match client_id with
         | some c => .jstr c
         | none => .jnull),
       ("priority", .jstr ("normal")),
       ("description", .jstr (""))]
    let z := create_request db rid "submitted" (some file_path) (some payload) client_id
    if publish_ok then
      (.ok (rid, "submitted"), z.2)
    else
      (.error ⟨500, "Failed to submit to MCP server"⟩, z.2)
  else
    (.error ⟨400, "Unsupported operation"⟩, db)

/-- Python `\s` whitespace class (`[ \t\n\r\f\v]`, ASCII range), used by the
`\s*` parts of `AudioAgent.patterns`. -/
def pySpace (c : Char) : Bool :=
  c == ' ' || c == '\t' || c == '\n' || c == '\r' || c == '\x0b' || c == '\x0c'

/-- `str.strip()` on a list of characters. -/
def pyStrip (l : List Char) : List Char :=
  ((l.dropWhile pySpace).reverse.dropWhile pySpace).reverse

/-- The normalisation `text.lower().strip()` performed at the top of
`AudioAgent.parse_natural_language` (`Char.toLower` is the ASCII lowering
that Python applies to ASCII input). -/
def normText (text : String) : List Char :=
  pyStrip ((text.toList).map Char.toLower)

/-- Python's substring test `needle in hay` on character lists. -/
def subOccurs (needle : List Char) : List Char → Bool
  | [] => needle.isEmpty
  | c :: rest => needle.isPrefixOf (c :: rest) || subOccurs needle rest

/-- `needle in text` for a string-literal needle against the normalised text. -/
def occursIn (needle : String) (hay : List Char) : Bool :=
  subOccurs needle.toList hay

/-- Numeric value of a digit run. -/
def digitsToNat (ds : List Char) : Nat :=
  ds.foldl (fun n c => 10 * n + (c.toNat - 48)) 0

/-- Match `\d+` at the current position. -/
def matchDigitsAt (l : List Char) : Option (Nat × List Char) :=
  if (l.takeWhile Char.isDigit).isEmpty then none
  else some (digitsToNat (l.takeWhile Char.isDigit), l.dropWhile Char.isDigit)

/-- Match `\.\d+` at the current position, returning the fractional value. -/
def matchFracAt : List Char → Option (Rat × List Char)
  | '.' :: r =>
    if (r.takeWhile Char.isDigit).isEmpty then none
    else some ((digitsToNat (r.takeWhile Char.isDigit) : Rat) /
                 ((10 : Rat) ^ (r.takeWhile Char.isDigit).length),
               r.dropWhile Char.isDigit)
  | _ => none

/-- Match `\d+(?:\.\d+)?` followed by `tail` at the current position, with the
regex backtracking on the optional fraction group (`\d+` may munch maximally:
every tail in `AudioAgent.patterns` starts with whitespace or a letter, never
a digit).  Returns the captured value as an exact rational — the model of
CPython's `float(match.group(1))`. -/
def numCore (frac : Bool) (tail : List Char → Option (List Char)) (l : List Char) :
    Option (Rat × List Char) :=
  match matchDigitsAt l with
  | none => none
  | some (n, r1) =>
    if frac then
      match matchFracAt r1 with
      | some (fv, r2) =>
        (match tail r2 with
         | some r3 => some ((n : Rat) + fv, r3)
         | none =>
           match tail r1 with
           | some r3 => some ((n : Rat), r3)
           | none => none)
      | none =>
        (match tail r1 with
         | some r3 => some ((n : Rat), r3)
         | none => none)
    else
      match tail r1 with
      | some r3 => some ((n : Rat), r3)
      | none => none

/-- Match `-?\d+(?:\.\d+)?` (sign allowed only when `neg`) followed by `tail`
at the current position.  When the position starts with `-` the greedy `-?`
consumes it and `\d+` must follow; backtracking to the sign-less branch
would put `\d+` on the `-` itself and fail, so the two definitions agree. -/
def matchNumTailAt (neg frac : Bool) (tail : List Char → Option (List Char))
    (l : List Char) : Option (Rat × List Char) :=
  match l with
  | c :: r =>
    if neg && (c == '-') then
      match numCore frac tail r with
      | some (v, rest) => some (-v, rest)
      | none => none
    else numCore frac tail (c :: r)
  | [] => numCore frac tail []

/-- `\s*` — drop Python whitespace. -/
def dropSpaces (l : List Char) : List Char := l.dropWhile pySpace

/-- `\s*dB` — the tail of the decibel pattern `(-?\d+(?:\.\d+)?)\s*dB`.  The
literal is case-sensitive: a lowercase `d` followed by an uppercase `B`. -/
def dbTail (l : List Char) : Option (List Char) :=
  match dropSpaces l with
  | 'd' :: 'B' :: r => some r
  | _ => none

/-- `x` — the tail of the ratio pattern `(\d+(?:\.\d+)?)x`. -/
def ratioTail : List Char → Option (List Char)
  | 'x' :: r => some r
  | _ => none

/-- A greedy optional trailing `s?`. -/
def optS : List Char → List Char
  | 's' :: r => r
  | l => l

/-- First alternative of `alts` that matches as `<word>s?` at this position
(Python tries alternatives left to right; the first letters here are
pairwise usable because a failing later literal never shadows an earlier
match). -/
def altUnit (alts : List String) (l : List Char) : Option (List Char) :=
  match alts with
  | [] => none
  | a :: rest =>
    if a.toList.isPrefixOf l then some (optS (l.drop a.length)) else altUnit rest l

/-- `\s*(?:seconds?|secs?|minutes?|mins?|hours?|hrs?)` — tail of the time
pattern. -/
def timeTail (l : List Char) : Option (List Char) :=
  altUnit ["second", "sec", "minute", "min", "hour", "hr"] (dropSpaces l)

/-- `\s*semitones?` — tail of the semitone pattern. -/
def semitoneTail (l : List Char) : Option (List Char) :=
  altUnit ["semitone"] (dropSpaces l)

/-- `patterns["time"]` at one position. -/
def timeMatchAt (l : List Char) : Option (Rat × List Char) :=
  matchNumTailAt false true timeTail l

/-- `patterns["db"]` = `(-?\d+(?:\.\d+)?)\s*dB` at one position. -/
def dbMatchAt (l : List Char) : Option (Rat × List Char) :=
  matchNumTailAt true true dbTail l

/-- `patterns["ratio"]` = `(\d+(?:\.\d+)?)x` at one position. -/
def ratioMatchAt (l : List Char) : Option (Rat × List Char) :=
  matchNumTailAt false true ratioTail l

/-- `patterns["semitone"]` = `(\d+)\s*semitones?` at one position (the group
is an integer, converted with `int(...)`). -/
def semitoneMatchAt (l : List Char) : Option (Nat × List Char) :=
  match matchDigitsAt l with
  | some (n, r1) =>
    (match semitoneTail r1 with
     | some r2 => some (n, r2)
     | none => none)
  | none => none

/-- `re.search`: try the pattern at every position left to right (the final
empty position included). -/
def reSearch {α : Type} (m : List Char → Option α) : List Char → Option α
  | [] => m []
  | c :: rest =>
    match m (c :: rest) with
    | some a => some a
    | none => reSearch m rest

def searchTime (l : List Char) : Option Rat := (reSearch timeMatchAt l).map Prod.fst

def searchDb (l : List Char) : Option Rat := (reSearch dbMatchAt l).map Prod.fst

def searchRatio (l : List Char) : Option Rat := (reSearch ratioMatchAt l).map Prod.fst

def searchSemitone (l : List Char) : Option Nat := (reSearch semitoneMatchAt l).map Prod.fst

/-- First alternative of `alts` matching at this position, with its capture. -/
def altCapture (alts : List String) (l : List Char) : Option (String × List Char) :=
  match alts with
  | [] => none
  | a :: rest =>
    if a.toList.isPrefixOf l then some (a, l.drop a.length) else altCapture rest l

/-- `patterns["quality"]` = `(low|medium|high)\s*quality` at one position. -/
def qualityMatchAt (l : List Char) : Option String :=
  match altCapture ["low", "medium", "high"] l with
  | some (a, r) => if ("quality".toList).isPrefixOf (dropSpaces r) then some a else none
  | none => none

/-- `patterns["format"]` = `(wav|mp3|flac|aac|ogg)` at one position. -/
def formatMatchAt (l : List Char) : Option String :=
  (altCapture ["wav", "mp3", "flac", "aac", "ogg"] l).map Prod.fst

def searchQuality (l : List Char) : Option String := reSearch qualityMatchAt l

def searchFormat (l : List Char) : Option String := reSearch formatMatchAt l

theorem dropWhile_length_le {α : Type} (p : α → Bool) :
    ∀ l : List α, (l.dropWhile p).length ≤ l.length := by
  intro l
  induction l with
  | nil => exact Nat.le_refl _
  | cons c t ih =>
    rw [List.dropWhile_cons]
    split
    · exact Nat.le_trans ih (Nat.le_succ _)
    · exact Nat.le_refl _

theorem dropSpaces_length_le (l : List Char) : (dropSpaces l).length ≤ l.length :=
  dropWhile_length_le pySpace l

theorem optS_length_le (l : List Char) : (optS l).length ≤ l.length := by
  unfold optS
  split
  · exact Nat.le_succ _
  · exact Nat.le_refl _

theorem altUnit_length_le :
    ∀ (alts : List String) (l r : List Char), altUnit alts l = some r → r.length ≤ l.length := by
  intro alts
  induction alts with
  | nil => intro l r h; simp [altUnit] at h
  | cons a rest ih =>
    intro l r h
    rw [altUnit] at h
    split at h
    · cases h
      calc (optS (l.drop a.length)).length ≤ (l.drop a.length).length := optS_length_le _
        _ ≤ l.length := by rw [List.length_drop]; exact Nat.sub_le _ _
    · exact ih l r h

theorem timeTail_length_le (l r : List Char) (h : timeTail l = some r) : r.length ≤ l.length :=
  Nat.le_trans (altUnit_length_le _ _ _ h) (dropSpaces_length_le l)

theorem matchDigitsAt_length_lt (l : List Char) (n : Nat) (r : List Char)
    (h : matchDigitsAt l = some (n, r)) : r.length < l.length := by
  unfold matchDigitsAt at h
  split at h
  · cases h
  · rename_i hne
    cases h
    cases l with
    | nil => simp [List.takeWhile] at hne
    | cons c t =>
      rw [List.takeWhile_cons] at hne
      rw [List.dropWhile_cons]
      by_cases hc : Char.isDigit c
      · simp [hc]
        exact Nat.lt_succ_of_le (dropWhile_length_le _ t)
      · simp [hc] at hne

theorem matchFracAt_length_lt (l : List Char) (q : Rat) (r : List Char)
    (h : matchFracAt l = some (q, r)) : r.length < l.length := by
  unfold matchFracAt at h
  split at h
  · rename_i r0
    split at h
    · cases h
    · cases h
      exact Nat.lt_succ_of_le (dropWhile_length_le _ r0)
  · cases h

theorem numCore_length_lt (frac : Bool) (tail : List Char → Option (List Char))
    (htail : ∀ a b, tail a = some b → b.length ≤ a.length) (l : List Char)
    (v : Rat) (r : List Char) (h : numCore frac tail l = some (v, r)) :
    r.length < l.length := by
  unfold numCore at h
  split at h
  · cases h
  · rename_i n r1 hdig
    have hr1 : r1.length < l.length := matchDigitsAt_length_lt l n r1 hdig
    split at h
    · split at h
      · rename_i fv r2 hfrac
        have hr2 : r2.length < r1.length := matchFracAt_length_lt r1 fv r2 hfrac
        split at h
        · cases h
          rename_i r3 h3
          exact Nat.lt_trans (Nat.lt_of_le_of_lt (htail _ _ h3) hr2) hr1
        · split at h
          · cases h
            rename_i r3 h3
            exact Nat.lt_of_le_of_lt (htail _ _ h3) hr1
          · cases h
      · split at h
        · cases h
          rename_i r3 h3
          exact Nat.lt_of_le_of_lt (htail _ _ h3) hr1
        · cases h
    · split at h
      · cases h
        rename_i r3 h3
        exact Nat.lt_of_le_of_lt (htail _ _ h3) hr1
      · cases h

theorem matchNumTailAt_length_lt (neg frac : Bool) (tail : List Char → Option (List Char))
    (htail : ∀ a b, tail a = some b → b.length ≤ a.length) (l : List Char)
    (v : Rat) (r : List Char) (h : matchNumTailAt neg frac tail l = some (v, r)) :
    r.length < l.length := by
  cases l with
  | nil => exact numCore_length_lt frac tail htail [] v r h
  | cons c t =>
    rw [matchNumTailAt] at h
    by_cases hc : (neg && (c == '-')) = true
    · rw [if_pos hc] at h
      cases h2 : numCore frac tail t with
      | none => rw [h2] at h; cases h
      | some p =>
        obtain ⟨v2, r2⟩ := p
        rw [h2] at h
        cases h
        exact Nat.lt_trans (numCore_length_lt frac tail htail t _ _ h2) (Nat.lt_succ_self _)
    · rw [if_neg hc] at h
      exact numCore_length_lt frac tail htail (c :: t) v r h

theorem timeMatchAt_length_lt (l : List Char) (v : Rat) (r : List Char)
    (h : timeMatchAt l = some (v, r)) : r.length < l.length := by
  unfold timeMatchAt at h
  exact matchNumTailAt_length_lt false true timeTail timeTail_length_le l v r h

/-- `re.findall(patterns["time"], text)`: scan left to right, collecting the
numeric captures; scanning resumes after the end of each match. -/
def findallTime (l : List Char) : List Rat :=
  match h : timeMatchAt l with
  | some (v, rest) => v :: findallTime rest
  | none =>
    match l with
    | [] => []
    | _ :: t => findallTime t
termination_by l.length
decreasing_by
  · exact timeMatchAt_length_lt l v rest h
  · simp

/-- A scalar parameter value in an operation's parameter dict: a Python
float (exact rational model), int, or string. -/
inductive PVal where
  | f (q : Rat) : PVal
  | i (n : Int) : PVal
  | s (v : String) : PVal
deriving DecidableEq

/-- `AudioAgent._extract_parameters(text, operation, op_info)`.  `op_info` is
not consulted by the source method, so it is not a parameter here.  The
returned association list holds the parameter dict in insertion order.
`Except` carries the one exception the method can raise: `1 / speed` with a
matched ratio of `0` is a `ZeroDivisionError` in CPython. -/
def extract_parameters (text : List Char) (operation : String) :
    Except String (List (String × PVal)) :=
  if operation == "trim" then
    match findallTime text with
    | a :: b :: _ => .ok [("start_time", .f a), ("end_time", .f b)]
    | [a] =>
      if occursIn ("from") text || occursIn ("start") text then .ok [("start_time", .f a)]
      else if occursIn ("to") text || occursIn ("end") text then .ok [("end_time", .f a)]
      else .ok []
    | [] => .ok []
  else if operation == "normalize" then
    match searchDb text with
    | some v => .ok [("target_db", .f v)]
    | none => .ok [("target_db", .f (-20))]
  else if operation == "change_speed" then
    match searchRatio text with
    | some v =>
      if occursIn ("slow") text || occursIn ("down") text then
        if v = 0 then .error ("ZeroDivisionError: float division by zero")
        else .ok [("speed_factor", .f (1 / v))]
      else .ok [("speed_factor", .f v)]
    | none =>
      if occursIn ("fast") text || occursIn ("speed up") text then
        .ok [("speed_factor", .f (1.5 : Rat))]
      else if occursIn ("slow") text || occursIn ("slow down") text then
        .ok [("speed_factor", .f (0.8 : Rat))]
      else .ok [("speed_factor", .f 1)]
  else if operation == "time_stretch_torch" then
    match searchRatio text with
    | some v => .ok [("rate", .f v)]
    | none =>
      if occursIn ("half") text then .ok [("rate", .f (0.5 : Rat))]
      else if occursIn ("double") text || occursIn ("twice") text then .ok [("rate", .f 2)]
      else .ok [("rate", .f 1)]
  else if operation == "change_pitch" then
    match searchSemitone text with
    | some n =>
      .ok [("pitch_steps",
            .i (if occursIn ("lower") text || occursIn ("down") text then -(n : Int) else (n : Int)))]
    | none => .ok [("pitch_steps", .i 0)]
  else if operation == "fade_in" || operation == "fade_out" then
    match searchTime text with
    | some v => .ok [("duration", .f v)]
    | none => .ok [("duration", .f 1)]
  else if operation == "convert_format" then
    .ok [("target_format", .s ((searchFormat text).getD ("mp3"))),
         ("quality", .s ((searchQuality text).getD ("high")))]
  else .ok []

/-- One entry of `AudioAgent.supported_operations`.  The `parameters` and
`examples` fields of the source dict are never consulted by the modelled
methods and are omitted. -/
structure OpInfo where
  aliases : List String
  description : String
deriving DecidableEq

/-- `AudioAgent.supported_operations` in dict insertion order. -/
def supported_operations : List (String × OpInfo) :=
  [("trim", ⟨["cut", "slice", "remove", "delete", "extract"],
     "Trim audio to specific time range"⟩),
   ("normalize", ⟨["balance", "level", "adjust volume", "fix levels"],
     "Normalize audio levels to target dB"⟩),
   ("fade_in", ⟨["fade", "smooth start", "gradual start"],
     "Apply fade in effect"⟩),
   ("fade_out", ⟨["fade end", "smooth end", "gradual end"],
     "Apply fade out effect"⟩),
   ("change_speed", ⟨["speed up", "slow down", "tempo", "pace"],
     "Change audio playback speed"⟩),
   ("change_pitch", ⟨["pitch", "tune", "key", "note"],
     "Change audio pitch"⟩),
   ("time_stretch_torch", ⟨["time stretch", "stretch", "tempo stretch"],
     "Time stretch audio using torchaudio"⟩),
   ("add_reverb", ⟨["reverb", "echo", "room", "space"],
     "Add reverb effect"⟩),
   ("noise_reduction", ⟨["remove noise", "clean", "filter", "denoise"],
     "Reduce background noise"⟩),
   ("equalize", ⟨["eq", "equalizer", "bass", "treble", "balance"],
     "Apply equalization"⟩),
   ("compress", ⟨["compression", "dynamic range", "squash"],
     "Apply dynamic range compression"⟩),
   ("merge", ⟨["combine", "join", "concatenate", "add"],
     "Merge multiple audio files"⟩),
   ("split", ⟨["divide", "separate", "segment", "cut into"],
     "Split audio into segments"⟩),
   ("convert_format", ⟨["convert", "export", "save as", "format"],
     "Convert to different audio format"⟩)]

/-- One identified-operation dict appended by `parse_natural_language`:
`{"operation", "parameters", "confidence", "description"}`. -/
structure Candidate where
  operation : String
  parameters : List (String × PVal)
  confidence : Rat
  description : String
deriving DecidableEq

/-- The body of the per-operation loop in `parse_natural_language`: a
candidate with confidence 1.0 when the operation name occurs in the text,
else confidence 0.9 on the first alias hit (`break`), else no candidate.
Parameter extraction runs inside and can propagate `ZeroDivisionError`. -/
def candidateFor (text : List Char) (name : String) (info : OpInfo) :
    Except String (Option Candidate) :=
  if occursIn name text then
    match extract_parameters text name with
    | .ok ps => .ok (some ⟨name, ps, 1, info.description⟩)
    | .error e => .error e
  else
    match info.aliases.find? (fun a => occursIn a text) with
    | some _ =>
      match extract_parameters text name with
      | .ok ps => .ok (some ⟨name, ps, (0.9 : Rat), info.description⟩)
      | .error e => .error e
    | none => .ok none

/-- The `for operation, info in self.supported_operations.items()` loop. -/
def identifyOps (text : List Char) : List (String × OpInfo) → Except String (List Candidate)
  | [] => .ok []
  | (n, i) :: rest =>
    match candidateFor text n i with
    | .error e => .error e
    | .ok none => identifyOps text rest
    | .ok (some c) =>
      match identifyOps text rest with
      | .error e => .error e
      | .ok cs => .ok (c :: cs)

/-- Insert a candidate after every already-placed candidate of greater or
equal confidence — one step of a stable descending sort. -/
def insertDescending (c : Candidate) : List Candidate → List Candidate
  | [] => [c]
  | x :: xs => if x.confidence < c.confidence then c :: x :: xs else x :: insertDescending c xs

/-- `identified_operations.sort(key=lambda x, reverse=True)` — CPython's sort
is stable; a stable descending sort on the confidence key. -/
def sortByConfidenceDesc (l : List Candidate) : List Candidate :=
  l.foldl (fun acc c => insertDescending c acc) []

/-- The dict returned by `parse_natural_language` (its wall-clock
`timestamp` field is omitted). -/
structure ParseResult where
  operations : List Candidate
  confidence : Rat
  parsed_text : List Char
deriving DecidableEq

/-- `AudioAgent.parse_natural_language`: lowercase and strip the text,
collect candidates over the catalog, sort them by descending confidence,
and average the confidences with `sum / max(len, 1)`. -/
def parse_natural_language (text : String) : Except String ParseResult :=
  match identifyOps (normText text) supported_operations with
  | .error e => .error e
  | .ok ops =>
    .ok { operations := sortByConfidenceDesc ops
          confidence := ((sortByConfidenceDesc ops).map (fun c => c.confidence)).sum /
                          ((max (sortByConfidenceDesc ops).length 1 : Nat) : Rat)
          parsed_text := normText text }

/-- `AudioAgent.generate_operation_chain`'s fixed precedence list
(`operation_order`). -/
def operation_order : List String :=
  ["noise_reduction", "normalize", "equalize", "compress", "trim", "fade_in",
   "fade_out", "time_stretch_torch", "change_speed", "change_pitch",
   "add_reverb", "split", "merge", "convert_format"]

/-- The second loop of `generate_operation_chain`: append every operation not
already present (`op not in sorted_operations` — membership by value, against
the growing output list). -/
def addRemaining (acc : List Candidate) : List Candidate → List Candidate
  | [] => acc
  | op :: rest => if op ∈ acc then addRemaining acc rest else addRemaining (acc ++ [op]) rest

/-- `AudioAgent.generate_operation_chain`: emit the candidates whose name is
in `operation_order`, in precedence order (the inner loop keeps input order
inside one name), then append the remaining ones. -/
def generate_operation_chain (operations : List Candidate) : List Candidate :=
  addRemaining
    (operation_order.foldl
      (fun acc n => acc ++ operations.filter (fun op => op.operation == n)) [])
    operations

/-- One element of a job payload's `operations` list in
`AudioProcessingMCP.process_operations`: a dict read with `op.get("name")`
(possibly absent) whose other keys (`start`, `end`, `duration`) feed the
external pydub calls and are carried opaquely. -/
structure ChainOp where
  name : Option String := none
  args : List (String × PVal) := []
deriving DecidableEq

/-- The if/elif dispatch inside the loop of
`AudioProcessingMCP.process_operations`: the four recognised names call into
pydub (the external Executor, passed in as `pydub`, which may itself raise);
any other name — a missing one printing as `None` — raises
`ValueError(f"Unsupported operation: {name}")`. -/
def applyChainStep {α : Type} (pydub : String → ChainOp → α → Except String α)
    (a : α) (op : ChainOp) : Except String α :=
  match op.name with
  | some n =>
    if n == "trim" || n == "fade_in" || n == "fade_out" || n == "normalize" then
      pydub n op a
    else .error ("Unsupported operation: " ++ n)
  | none => .error ("Unsupported operation: None")

/-- The `for op in operations` loop of `process_operations`: strictly
sequential, stopping at the first step that raises. -/
def runChain {α : Type} (pydub : String → ChainOp → α → Except String α) :
    α → List ChainOp → Except String α
  | a, [] => .ok a
  | a, op :: rest =>
    match applyChainStep pydub a op with
    | .ok a2 => runChain pydub a2 rest
    | .error e => .error e

/-- `Path(file_path).stem` for ordinary file names: the last path component
without its extension. -/
def pathStem (p : String) : String :=
  ((fun base : List Char =>
     if base.any (fun c => c == '.') then
       (((base.reverse.dropWhile (fun c => !(c == '.'))).drop 1).reverse)
     else base)
    ((p.toList.reverse.takeWhile (fun c => !(c == '/'))).reverse)).asString

/-- `AudioProcessingMCP.process_operations(file_path, operations)`: reject an
empty list, load the file (`AudioSegment.from_file`, external, may raise),
run the chain, export to `processed/<stem>_processed.wav` (external, may
raise) and return that path. -/
def process_operations {α : Type} (pydub : String → ChainOp → α → Except String α)
    (loadFile : String → Except String α) (exportFile : String → α → Except String Unit)
    (file_path : String) (ops : List ChainOp) : Except String String :=
  if ops.isEmpty then .error ("No operations provided")
  else
    match loadFile file_path with
    | .error e => .error e
    | .ok a0 =>
      match runChain pydub a0 ops with
      | .error e => .error e
      | .ok afinal =>
        match exportFile ("processed/" ++ pathStem file_path ++ "_processed.wav") afinal with
        | .error e => .error e
        | .ok _ => .ok ("processed/" ++ pathStem file_path ++ "_processed.wav")

/-- The keys of `AudioProcessingMCP.supported_operations`. -/
def mcpServerOperationNames : List String :=
  ["trim", "normalize", "fade_in", "fade_out", "change_speed", "change_pitch",
   "add_reverb", "noise_reduction", "equalize", "compress", "merge", "split",
   "convert_format", "process_operations"]

/-- A decoded job payload as read by `process_single_request` /
`execute_audio_operation`: each key is read with `.get`, so each may be
absent.  `chain_ops` is `parameters.get("operations", [])` — the list the
`process_operations` handler consumes; other parameters feed the external
single-operation handlers and are carried opaquely in `params`. -/
structure WorkerPayload where
  request_id : Option String := none
  operation : Option String := none
  audio_data : Option String := none
  chain_ops : List ChainOp := []
  params : List (String × PVal) := []
deriving DecidableEq

/-- What a handler returns: the `process_operations` wrapper's
`{"output_path", "operations"}` dict, or the dict of one of the
single-operation DSP handlers (external, abstracted to a tag). -/
inductive WorkerResult where
  | chain (output_path : String) (operations : List ChainOp) : WorkerResult
  | single (tag : String) : WorkerResult
deriving DecidableEq

/-- The dict `execute_audio_operation` returns:
`{"operation", "result", "parameters", "timestamp"}` (wall-clock timestamp
omitted, parameters carried inside the payload). -/
structure ExecWrapped where
  operation : Option String
  result : WorkerResult
deriving DecidableEq

/-- One message published on `audio/status/{request_id}`
(`publish_status`; wall-clock timestamp omitted). -/
structure StatusMsg where
  request_id : String
  status : String
  message : String
deriving DecidableEq

/-- A message published by the worker: a status update or a result
(`publish_result` on `audio/results/{request_id}`). -/
inductive Published where
  | status (m : StatusMsg) : Published
  | result (request_id : String) (r : ExecWrapped) : Published
deriving DecidableEq

/-- `AudioProcessingMCP.execute_audio_operation`: reject operations that are
not keys of `supported_operations` (`str(None)` prints as `None`); dispatch
`process_operations` to the chain runner, every other known operation to its
external DSP handler (`singleOp`).  The temporary-file bookkeeping is a
filesystem side effect outside the embedding. -/
def execute_audio_operation {α : Type} (pydub : String → ChainOp → α → Except String α)
    (loadFile : String → Except String α) (exportFile : String → α → Except String Unit)
    (singleOp : String → WorkerPayload → Except String WorkerResult)
    (payload : WorkerPayload) : Except String ExecWrapped :=
  match payload.operation with
  | none => .error ("Unsupported operation: None")
  | some op =>
    if mcpServerOperationNames.contains op then
      if op == "process_operations" then
        match process_operations pydub loadFile exportFile
                ((payload.audio_data).getD ("")) payload.chain_ops with
        | .ok rpath => .ok ⟨some op, .chain rpath payload.chain_ops⟩
        | .error e => .error e
      else
        match singleOp op payload with
        | .ok r => .ok ⟨some op, r⟩
        | .error e => .error e
    else .error ("Unsupported operation: " ++ op)

/-- `AudioProcessingMCP.process_single_request`: publish `processing`, run
the operation, then publish `completed` plus the result — or, when anything
raised, publish a status whose status field is the string `"error"` carrying
`f"Error: {str(e)}"`.  The fresh `uuid.uuid4()` fallback for a payload
without `request_id` arrives as `freshId`. -/
def process_single_request {α : Type} (pydub : String → ChainOp → α → Except String α)
    (loadFile : String → Except String α) (exportFile : String → α → Except String Unit)
    (singleOp : String → WorkerPayload → Except String WorkerResult)
    (payload : WorkerPayload) (freshId : String) : List Published :=
  match execute_audio_operation pydub loadFile exportFile singleOp payload with
  | .ok w =>
    [.status ⟨(payload.request_id).getD freshId, "processing", "Processing audio file..."⟩,
     .status ⟨(payload.request_id).getD freshId, "completed", "Audio processing completed"⟩,
     .result ((payload.request_id).getD freshId) w]
  | .error e =>
    [.status ⟨(payload.request_id).getD freshId, "processing", "Processing audio file..."⟩,
     .status ⟨(payload.request_id).getD freshId, "error", "Error: " ++ e⟩]

theorem applyFields_request_id (r : APIRequest) (f : UpdateFields) :
    (applyFields r f).request_id = r.request_id := rfl

theorem update_request_status_found :
    ∀ (db : Store) (rid : String) (f : UpdateFields) (req : APIRequest),
      get_request db rid = some req →
      (update_request_status db rid f).1 = some (applyFields req f) ∧
      get_request (update_request_status db rid f).2 rid = some (applyFields req f) := by
  intro db
  induction db with
  | nil => intro rid f req h; simp [get_request] at h
  | cons r rest ih =>
    intro rid f req h
    rw [get_request, List.find?_cons] at h
    by_cases hr : (r.request_id == rid) = true
    · rw [hr] at h
      have hreq : r = req := by
        simpa using h
      subst hreq
      rw [update_request_status, if_pos hr]
      refine ⟨rfl, ?_⟩
      rw [get_request, List.find?_cons]
      have h2 : ((applyFields r f).request_id == rid) = true := by
        rw [applyFields_request_id]; exact hr
      rw [h2]
    · have hb : (r.request_id == rid) = false := Bool.not_eq_true _ ▸ eq_false_of_ne_true hr
      rw [hb] at h
      have z := ih rid f req h
      rw [update_request_status, if_neg hr]
      refine ⟨z.1, ?_⟩
      rw [get_request, List.find?_cons, hb]
      exact z.2

theorem applyFields_idem (r : APIRequest) (f : UpdateFields) :
    applyFields (applyFields r f) f = applyFields r f := by
  cases h1 : f.status <;> cases h2 : f.progress <;> cases h3 : f.result <;>
    cases h4 : f.payload <;> cases h5 : f.file_path <;> cases h6 : f.client_id <;>
    simp [applyFields, h1, h2, h3, h4, h5, h6]

theorem update_request_status_idem (db : Store) (rid : String) (f : UpdateFields) :
    update_request_status (update_request_status db rid f).2 rid f
      = update_request_status db rid f := by
  induction db with
  | nil => rfl
  | cons r rest ih =>
    by_cases hr : (r.request_id == rid) = true
    · rw [update_request_status, if_pos hr]
      have h2 : ((applyFields r f).request_id == rid) = true := by
        rw [applyFields_request_id]; exact hr
      rw [update_request_status, if_pos h2, applyFields_idem]
    · rw [update_request_status, if_neg hr]
      rw [update_request_status, if_neg hr]
      rw [ih]

/-- A stored request sitting in the non-terminal `submitted` state. -/
def reqSubmitted : APIRequest :=
  { request_id := "r1", status := "submitted", file_path := none, payload := none,
    client_id := none, progress := none, result := none }

/-- A stored request already in the terminal `completed` state. -/
def reqCompleted : APIRequest :=
  { request_id := "r1", status := "completed", file_path := none, payload := none,
    client_id := none, progress := none, result := none }

/-- C1, amended.  The Request Store update (`crud.update_request_status`)
enforces no state machine at all: an update overwrites `status` with
whatever non-None value it carries, whatever the current status — in
particular terminal statuses are not protected.  The only transition guard
in the repository is `cancel_request`'s refusal to cancel a terminal
request; the listener path has none. -/
theorem C1_store_status_unguarded (db : Store) (rid : String) (f : UpdateFields)
    (req : APIRequest) (h : get_request db rid = some req) :
    get_request (update_request_status db rid f).2 rid = some (applyFields req f) ∧
    (applyFields req f).status = (f.status).getD req.status := by
  refine ⟨(update_request_status_found db rid f req h).2, ?_⟩
  cases hs : f.status <;> simp [applyFields, hs]

/-- Witness for `C1_store_status_unguarded` at a concrete store. -/
theorem C1_store_status_unguarded_witness :
    get_request (update_request_status [reqSubmitted] "r1"
        { status := some ("processing") }).2 "r1"
      = some (applyFields reqSubmitted { status := some ("processing") }) ∧
    (applyFields reqSubmitted { status := some ("processing") }).status
      = ((some ("processing")).getD reqSubmitted.status) :=
  C1_store_status_unguarded [reqSubmitted] "r1" { status := some ("processing") }
    reqSubmitted (by decide)

/-- C1 counterexample: a request whose status is the terminal `completed`
leaves the terminal state when the Status Listener feed delivers a
`processing` event — the edge `completed → processing`, which the claim
says can never be observed. -/
theorem C1_terminal_escape_cex :
    (get_request [reqCompleted] "r1").map APIRequest.status = some ("completed") ∧
    (get_request
        (listen_status_update [reqCompleted]
          { request_id := some ("r1"), status := some ("processing") })
        "r1").map APIRequest.status = some ("processing") := by
  constructor <;> decide

/-- C2, amended.  For an inbound status event with a truthy request id over
an existing request, the listener writes exactly: `status` set to the
event's status *or the literal string `"unknown"` when the event has no
status field*; `progress` overwritten only when present; `result`
overwritten (JSON-serialised) only when present; all other columns
untouched.  The claim's "a field absent from the event payload is not
written" fails for `status`. -/
theorem C2_listener_field_merge (db : Store) (p : MqttStatusPayload) (rid : String)
    (req : APIRequest) (h1 : p.request_id = some rid) (h2 : rid ≠ "")
    (h3 : get_request db rid = some req) :
    get_request (listen_status_update db p) rid = some
      { req with
        status := (p.status).getD ("unknown")
        progress := match p.progress with
          | some q => some q
          | none => req.progress
        result := match p.result with
          | some v => some (dumpJson v)
          | none => req.result } := by
  unfold listen_status_update
  rw [h1]
  dsimp only
  rw [if_pos h2]
  rw [(update_request_status_found db rid _ req h3).2]
  cases hp : p.progress <;> cases hr : p.result <;>
    simp [applyFields, hp, hr]

/-- Witness for `C2_listener_field_merge` at a concrete store and event. -/
theorem C2_listener_field_merge_witness :
    get_request
        (listen_status_update [reqSubmitted]
          { request_id := some ("r1"), status := some ("processing"),
            progress := some ((1 : Rat)/4) })
        "r1"
      = some
        { reqSubmitted with
          status := ((some ("processing")).getD ("unknown"))
          progress := match some ((1 : Rat)/4) with
            | some q => some q
            | none => reqSubmitted.progress
          result := match (none : Option JsonVal) with
            | some v => some (dumpJson v)
            | none => reqSubmitted.result } :=
  C2_listener_field_merge [reqSubmitted]
    { request_id := some ("r1"), status := some ("processing"),
      progress := some ((1 : Rat)/4) }
    "r1" reqSubmitted rfl (by decide) (by decide)

/-- C2 counterexample: an event that carries no `status` field at all still
rewrites the stored status — to the literal `"unknown"` — contradicting
"a field absent from the event payload is not written". -/
theorem C2_absent_status_writes_unknown_cex :
    (get_request
        (listen_status_update [reqCompleted]
          { request_id := some ("r1"), progress := some ((1 : Rat)/2) })
        "r1").map APIRequest.status = some ("unknown") := by
  decide

/-- C3, confirmed.  Applying the identical status event (the same
`update_request_status` field set) twice in a row returns the same row and
leaves the same table as the first application: the write is idempotent. -/
theorem C3_status_event_idempotent (db : Store) (rid : String) (f : UpdateFields)
    (req : APIRequest) (_h : get_request db rid = some req) :
    update_request_status (update_request_status db rid f).2 rid f
      = update_request_status db rid f :=
  update_request_status_idem db rid f

/-- Witness for `C3_status_event_idempotent` at a concrete store. -/
theorem C3_status_event_idempotent_witness :
    update_request_status
        (update_request_status [reqSubmitted] "r1"
          { status := some ("completed"), progress := some (1 : Rat) }).2 "r1"
        { status := some ("completed"), progress := some (1 : Rat) }
      = update_request_status [reqSubmitted] "r1"
          { status := some ("completed"), progress := some (1 : Rat) } :=
  C3_status_event_idempotent [reqSubmitted] "r1"
    { status := some ("completed"), progress := some (1 : Rat) }
    reqSubmitted (by decide)

/-- C8, confirmed.  `cancel_request` on a request whose stored status is
terminal (`completed`, `failed` or `cancelled`) answers with the 400
`InvalidTransition` error and returns the store exactly as it was: no field
of any stored request is mutated. -/
theorem C8_cancel_terminal_rejected (db : Store) (rid : String) (req : APIRequest)
    (h1 : get_request db rid = some req) (h2 : req.status ∈ terminalStatuses) :
    cancel_request db rid =
      (.error ⟨400, "Cannot cancel completed/failed request"⟩, db) := by
  unfold cancel_request
  rw [h1]
  dsimp only
  have hc : terminalStatuses.contains req.status = true := by
    simp
    exact h2
  rw [if_pos hc]

/-- Witness for `C8_cancel_terminal_rejected` on a completed request. -/
theorem C8_cancel_terminal_rejected_witness :
    cancel_request [reqCompleted] "r1" =
      (.error ⟨400, "Cannot cancel completed/failed request"⟩, [reqCompleted]) :=
  C8_cancel_terminal_rejected [reqCompleted] "r1" reqCompleted (by decide) (by decide)

/-- C9, confirmed.  A submission whose (singleton) operation chain names an
operation that is not a key of the gateway's catalog is rejected with the
400 `"Unsupported operation"` validation error before `create_request` runs:
the store comes back unchanged. -/
theorem C9_submit_unknown_op_rejected (db : Store) (rid : String) (operation : String)
    (parameters : List (String × JsonVal)) (file_path : String)
    (client_id : Option String) (publish_ok : Bool)
    (h : operation ∉ gatewayOperationNames) :
    submit_audio_edit db rid operation parameters file_path client_id publish_ok =
      (.error ⟨400, "Unsupported operation"⟩, db) := by
  unfold submit_audio_edit
  have hc : gatewayOperationNames.contains operation = false := by
    simp
    exact h
  rw [hc]
  simp

/-- Witness for `C9_submit_unknown_op_rejected` on a concrete submission. -/
theorem C9_submit_unknown_op_rejected_witness :
    submit_audio_edit [] "id1" "frobnicate" [] "uploads/a.wav" none true =
      (.error ⟨400, "Unsupported operation"⟩, []) :=
  C9_submit_unknown_op_rejected [] "id1" "frobnicate" [] "uploads/a.wav" none true
    (by decide)

/-- A parsed `trim` candidate (parameters empty, as for text with no time
quantities). -/
def candTrim : Candidate :=
  { operation := "trim", parameters := [], confidence := 1,
    description := "Trim audio to specific time range" }

/-- A parsed `fade_in` candidate. -/
def candFadeIn : Candidate :=
  { operation := "fade_in", parameters := [("duration", .f 1)], confidence := 1,
    description := "Apply fade in effect" }

/-- A parsed `noise_reduction` candidate. -/
def candNoiseReduction : Candidate :=
  { operation := "noise_reduction", parameters := [], confidence := 1,
    description := "Reduce background noise" }

/-- A candidate whose operation name is not in the planner's precedence
list. -/
def candFrob : Candidate :=
  { operation := "frobnicate", parameters := [], confidence := 1, description := "" }

/-- C5, confirmed.  The Chain Planner is a pure function, and on the input
`[fade_in, noise_reduction, trim]` it returns
`[noise_reduction, trim, fade_in]`, because `noise_reduction` precedes
`trim` and `trim` precedes `fade_in` in the fixed `operation_order` list. -/
theorem C5_planner_concrete_order :
    generate_operation_chain [candFadeIn, candNoiseReduction, candTrim]
        = [candNoiseReduction, candTrim, candFadeIn] ∧
    operation_order.indexOf ("noise_reduction") < operation_order.indexOf ("trim") ∧
    operation_order.indexOf ("trim") < operation_order.indexOf ("fade_in") := by
  refine ⟨by decide, by decide, by decide⟩

theorem foldl_append_filter (ops : List Candidate) :
    ∀ (names : List String) (acc : List Candidate),
      names.foldl (fun a n => a ++ ops.filter (fun op => op.operation == n)) acc
        = acc ++ names.flatMap (fun n => ops.filter (fun op => op.operation == n)) := by
  intro names
  induction names with
  | nil => intro acc; simp
  | cons n ns ih =>
    intro acc
    rw [List.foldl_cons, ih, List.flatMap_cons, List.append_assoc]

theorem addRemaining_nodup :
    ∀ l : List Candidate, l.Nodup → ∀ acc : List Candidate,
      addRemaining acc l = acc ++ l.filter (fun op => decide (op ∉ acc)) := by
  intro l
  induction l with
  | nil => intro _ acc; simp [addRemaining]
  | cons op rest ih =>
    intro hnd acc
    have hop : op ∉ rest := (List.nodup_cons.mp hnd).1
    have hrest : rest.Nodup := (List.nodup_cons.mp hnd).2
    rw [addRemaining]
    by_cases hmem : op ∈ acc
    · rw [if_pos hmem, ih hrest acc, List.filter_cons]
      simp [hmem]
    · rw [if_neg hmem, ih hrest (acc ++ [op]), List.filter_cons]
      have hcong : rest.filter (fun x => decide (x ∉ acc ++ [op]))
          = rest.filter (fun x => decide (x ∉ acc)) := by
        apply List.filter_congr
        intro x hx
        have hxop : x ≠ op := fun he => hop (he ▸ hx)
        simp [List.mem_append, hxop]
      rw [hcong]
      simp [hmem, List.append_assoc]

theorem mem_flatMap_filter_iff (ops : List Candidate) (names : List String) (x : Candidate) :
    x ∈ names.flatMap (fun n => ops.filter (fun op => op.operation == n))
      ↔ x ∈ ops ∧ x.operation ∈ names := by
  rw [List.mem_flatMap]
  constructor
  · rintro ⟨n, hn, hx⟩
    rw [List.mem_filter] at hx
    have := (beq_iff_eq).mp hx.2
    exact ⟨hx.1, this ▸ hn⟩
  · rintro ⟨hx, hn⟩
    exact ⟨x.operation, hn, List.mem_filter.mpr ⟨hx, by simp⟩⟩

theorem filter_name_append_perm (ops : List Candidate) (n : String) (ns : List String)
    (hn : ¬ n ∈ ns) :
    List.Perm
      (ops.filter (fun op => op.operation == n)
        ++ ops.filter (fun op => ns.contains op.operation))
      (ops.filter (fun op => (n :: ns).contains op.operation)) := by
  induction ops with
  | nil => simp
  | cons a t ih =>
    by_cases h1 : a.operation = n
    · have hb1 : (a.operation == n) = true := by simp [h1]
      have hb2 : ns.contains a.operation = false := by
        simp [h1]
        exact hn
      have hb3 : (n :: ns).contains a.operation = true := by simp [h1]
      simp only [List.filter_cons, hb1, hb2, hb3, if_true, Bool.false_eq_true,
        if_false, List.cons_append]
      exact List.Perm.cons a ih
    · have hb1 : (a.operation == n) = false := by simp [h1]
      by_cases h2 : a.operation ∈ ns
      · have hb2 : ns.contains a.operation = true := by simp [h2]
        have hb3 : (n :: ns).contains a.operation = true := by simp [h2]
        simp only [List.filter_cons, hb1, hb2, hb3, if_true, Bool.false_eq_true,
          if_false]
        exact List.Perm.trans List.perm_middle (List.Perm.cons a ih)
      · have hb2 : ns.contains a.operation = false := by
          simp
          exact h2
        have hb3 : (n :: ns).contains a.operation = false := by
          simp
          exact ⟨fun he => h1 he, h2⟩
        simp only [List.filter_cons, hb1, hb2, hb3, Bool.false_eq_true, if_false]
        exact ih

theorem flatMap_filter_perm (ops : List Candidate) :
    ∀ names : List String, names.Nodup →
      List.Perm (names.flatMap (fun n => ops.filter (fun op => op.operation == n)))
        (ops.filter (fun op => names.contains op.operation)) := by
  intro names
  induction names with
  | nil =>
    intro _
    simp
  | cons n ns ih =>
    intro hnd
    rw [List.flatMap_cons]
    exact List.Perm.trans
      (List.Perm.append_left _ (ih (List.nodup_cons.mp hnd).2))
      (filter_name_append_perm ops n ns (List.nodup_cons.mp hnd).1)

/-- C4, amended.  For an input list of pairwise-distinct candidates the
planner's output is exactly the stable partition the claim describes: the
candidates whose name is in `operation_order`, grouped in precedence order
with ties in input order, followed by the unrecognised ones in input order —
and the output is a permutation of the input (nothing dropped, nothing
duplicated).  Without the distinctness hypothesis the claim is false: the
second planner loop tests `op not in sorted_operations` by value, so a
duplicate unrecognised candidate is emitted only once (see the
counterexample). -/
theorem C4_planner_stable_partition (ops : List Candidate) (hnd : ops.Nodup) :
    generate_operation_chain ops
        = (operation_order.flatMap fun n => ops.filter (fun op => op.operation == n))
          ++ ops.filter (fun op => !(operation_order.contains op.operation)) ∧
    List.Perm (generate_operation_chain ops) ops := by
  have hgen : generate_operation_chain ops
      = addRemaining
          (operation_order.flatMap fun n => ops.filter (fun op => op.operation == n)) ops := by
    rw [generate_operation_chain, foldl_append_filter, List.nil_append]
  have hfc : ops.filter
        (fun x => decide (x ∉ (operation_order.flatMap fun n => ops.filter (fun op => op.operation == n))))
      = ops.filter (fun op => !(operation_order.contains op.operation)) := by
    apply List.filter_congr
    intro x hx
    simp [mem_flatMap_filter_iff, hx]
  have heq : generate_operation_chain ops
      = (operation_order.flatMap fun n => ops.filter (fun op => op.operation == n))
        ++ ops.filter (fun op => !(operation_order.contains op.operation)) := by
    rw [hgen, addRemaining_nodup ops hnd, hfc]
  refine ⟨heq, ?_⟩
  rw [heq]
  exact List.Perm.trans
    (List.Perm.append_right _ (flatMap_filter_perm ops operation_order (by decide)))
    (List.filter_append_perm _ ops)

/-- Witness for `C4_planner_stable_partition` on the spec's own example
input `[trim, frobnicate]`. -/
theorem C4_planner_stable_partition_witness :
    (generate_operation_chain [candTrim, candFrob]
        = (operation_order.flatMap fun n => [candTrim, candFrob].filter (fun op => op.operation == n))
          ++ [candTrim, candFrob].filter (fun op => !(operation_order.contains op.operation))) ∧
    List.Perm (generate_operation_chain [candTrim, candFrob]) [candTrim, candFrob] :=
  C4_planner_stable_partition [candTrim, candFrob] (by decide)

/-- C4 counterexample: two equal candidates with an unrecognised name go in,
only one comes out — the planner drops the duplicate, so the output does
not contain exactly the input candidates. -/
theorem C4_duplicate_unknown_dropped_cex :
    generate_operation_chain [candFrob, candFrob] = [candFrob] ∧
    ([candFrob] : List Candidate).length ≠ ([candFrob, candFrob] : List Candidate).length := by
  refine ⟨by decide, by decide⟩

theorem insertDescending_perm (c : Candidate) (l : List Candidate) :
    List.Perm (insertDescending c l) (c :: l) := by
  induction l with
  | nil => exact List.Perm.refl _
  | cons x xs ih =>
    rw [insertDescending]
    split
    · exact List.Perm.refl _
    · exact List.Perm.trans (List.Perm.cons x ih) (List.Perm.swap c x xs)

theorem sortInsert_perm :
    ∀ (l acc : List Candidate),
      List.Perm (l.foldl (fun a c => insertDescending c a) acc) (l ++ acc) := by
  intro l
  induction l with
  | nil => intro acc; exact List.Perm.refl _
  | cons x xs ih =>
    intro acc
    rw [List.foldl_cons]
    refine List.Perm.trans (ih (insertDescending x acc)) ?_
    refine List.Perm.trans (List.Perm.append_left xs (insertDescending_perm x acc)) ?_
    exact List.perm_middle

theorem sortByConfidenceDesc_perm (l : List Candidate) :
    List.Perm (sortByConfidenceDesc l) l := by
  have h := sortInsert_perm l []
  simpa [sortByConfidenceDesc] using h

theorem candidateFor_ok_some (t : List Char) (n : String) (i : OpInfo) (c : Candidate)
    (h : candidateFor t n i = .ok (some c)) :
    c.operation = n ∧
    ((occursIn n t = true ∧ c.confidence = 1) ∨
      (occursIn n t = false ∧ c.confidence = (0.9 : Rat) ∧
        ∃ a ∈ i.aliases, occursIn a t = true)) ∧
    extract_parameters t n = .ok c.parameters := by
  unfold candidateFor at h
  split at h
  · rename_i hocc
    split at h
    · rename_i ps hps
      cases h
      exact ⟨rfl, Or.inl ⟨hocc, rfl⟩, hps⟩
    · cases h
  · rename_i hnocc
    split at h
    · rename_i a ha
      split at h
      · rename_i ps hps
        cases h
        refine ⟨rfl, Or.inr ⟨?_, rfl, a, List.mem_of_find?_eq_some ha,
          by simpa using List.find?_some ha⟩, hps⟩
        exact Bool.not_eq_true _ ▸ eq_false_of_ne_true hnocc
      · cases h
    · cases h

theorem identifyOps_sound :
    ∀ (catalog : List (String × OpInfo)) (t : List Char) (res : List Candidate),
      identifyOps t catalog = .ok res →
      ∀ c ∈ res, ∃ i : OpInfo, (c.operation, i) ∈ catalog ∧
        candidateFor t c.operation i = .ok (some c) := by
  intro catalog
  induction catalog with
  | nil =>
    intro t res h c hc
    rw [identifyOps] at h
    cases h
    cases hc
  | cons p rest ih =>
    intro t res h c hc
    obtain ⟨n, i⟩ := p
    rw [identifyOps] at h
    split at h
    · cases h
    · rename_i hnone
      obtain ⟨i2, hmem, hcf⟩ := ih t res h c hc
      exact ⟨i2, List.mem_cons_of_mem _ hmem, hcf⟩
    · rename_i c0 hc0
      split at h
      · cases h
      · rename_i cs hcs
        cases h
        rcases List.mem_cons.mp hc with hceq | hmem
        · subst hceq
          have hop := (candidateFor_ok_some t n i c hc0).1
          exact ⟨i, by rw [hop]; exact List.mem_cons_self _ _, by rw [hop]; exact hc0⟩
        · obtain ⟨i2, hmem2, hcf⟩ := ih t cs hcs c hmem
          exact ⟨i2, List.mem_cons_of_mem _ hmem2, hcf⟩

theorem identifyOps_names_sublist :
    ∀ (catalog : List (String × OpInfo)) (t : List Char) (res : List Candidate),
      identifyOps t catalog = .ok res →
      List.Sublist (res.map (fun c => c.operation)) (catalog.map (fun p => p.1)) := by
  intro catalog
  induction catalog with
  | nil =>
    intro t res h
    rw [identifyOps] at h
    cases h
    exact List.Sublist.refl _
  | cons p rest ih =>
    intro t res h
    obtain ⟨n, i⟩ := p
    rw [identifyOps] at h
    split at h
    · cases h
    · exact (ih t res h).cons n
    · rename_i c0 hc0
      split at h
      · cases h
      · rename_i cs hcs
        cases h
        rw [List.map_cons, List.map_cons]
        rw [(candidateFor_ok_some t n i c0 hc0).1]
        exact (ih t cs hcs).cons₂ n

theorem parse_ok_elim (text : String) (r : ParseResult)
    (h : parse_natural_language text = .ok r) :
    ∃ ops, identifyOps (normText text) supported_operations = .ok ops ∧
      r.operations = sortByConfidenceDesc ops ∧
      r.confidence = ((sortByConfidenceDesc ops).map (fun c => c.confidence)).sum /
          ((max (sortByConfidenceDesc ops).length 1 : Nat) : Rat) := by
  unfold parse_natural_language at h
  split at h
  · cases h
  · rename_i ops hops
    cases h
    exact ⟨ops, hops, rfl, rfl⟩

/-- C6, amended.  Whenever the resolver returns (it does not always return:
see the counterexample — the `change_speed` extraction computes `1 / speed`
and raises `ZeroDivisionError` on a matched ratio of `0x` with "slow" or
"down" in the text), every returned candidate has confidence 1.0 exactly
when its canonical name occurs in the lowercased text and 0.9 when only an
alias occurs; at most one candidate per catalog operation is emitted (the
alias scan stops at the first hit); the overall confidence is the
arithmetic mean of the candidate confidences and is exactly 0 when the
candidate list is empty. -/
theorem C6_resolver_confidence (text : String) (r : ParseResult)
    (h : parse_natural_language text = .ok r) :
    (∀ c ∈ r.operations,
        (occursIn c.operation (normText text) = true ∧ c.confidence = 1) ∨
        (occursIn c.operation (normText text) = false ∧ c.confidence = (0.9 : Rat) ∧
          ∃ i : OpInfo, (c.operation, i) ∈ supported_operations ∧
            ∃ a ∈ i.aliases, occursIn a (normText text) = true)) ∧
    (r.operations.map (fun c => c.operation)).Nodup ∧
    (r.operations ≠ [] →
      r.confidence
        = ((r.operations.map (fun c => c.confidence)).sum) / (r.operations.length : Rat)) ∧
    (r.operations = [] → r.confidence = 0) := by
  obtain ⟨ops, hops, hopseq, hconf⟩ := parse_ok_elim text r h
  refine ⟨?_, ?_, ?_, ?_⟩
  · intro c hc
    rw [hopseq] at hc
    have hmem : c ∈ ops := (sortByConfidenceDesc_perm ops).mem_iff.mp hc
    obtain ⟨i, hcat, hcf⟩ := identifyOps_sound supported_operations (normText text) ops hops c hmem
    obtain ⟨hop, hdisj, hext⟩ := candidateFor_ok_some _ _ _ _ hcf
    rcases hdisj with ⟨hocc, hcp⟩ | ⟨hnocc, hcp, a, hamem, haocc⟩
    · exact Or.inl ⟨by rw [hop]; exact hocc, hcp⟩
    · exact Or.inr ⟨by rw [hop]; exact hnocc, hcp, i, hcat, a, hamem, haocc⟩
  · have h1 := identifyOps_names_sublist supported_operations (normText text) ops hops
    have h2 : (supported_operations.map (fun p => p.1)).Nodup := by decide
    have h3 : (ops.map (fun c => c.operation)).Nodup := h2.sublist h1
    have h4 := (sortByConfidenceDesc_perm ops).map (fun c => c.operation)
    rw [hopseq]
    exact h4.symm.nodup h3
  · intro hne
    rw [hopseq] at hne
    have hpos : 1 ≤ (sortByConfidenceDesc ops).length :=
      Nat.succ_le_of_lt (List.length_pos.mpr hne)
    rw [hconf, hopseq, Nat.max_eq_left hpos]
  · intro hnil
    rw [hopseq] at hnil
    rw [hconf, hnil]
    simp

instance {ε α : Type} [DecidableEq ε] [DecidableEq α] : DecidableEq (Except ε α) :=
  fun a b =>
    match a, b with
    | .ok x, .ok y =>
      if h : x = y then .isTrue (by rw [h]) else .isFalse (fun he => h (by cases he; rfl))
    | .error x, .error y =>
      if h : x = y then .isTrue (by rw [h]) else .isFalse (fun he => h (by cases he; rfl))
    | .ok _, .error _ => .isFalse (fun he => by cases he)
    | .error _, .ok _ => .isFalse (fun he => by cases he)

/-- The result of the resolver on the plain text `"normalize"`: one
candidate with confidence 1.0 and the default decibel target. -/
def normalizeParseResult : ParseResult :=
  { operations := [{ operation := "normalize",
                     parameters := [("target_db", PVal.f (-20))],
                     confidence := 1,
                     description := "Normalize audio levels to target dB" }],
    confidence := 1,
    parsed_text := "normalize".toList }

theorem parse_normalize_eval :
    parse_natural_language "normalize" = .ok normalizeParseResult := by
  have hid : identifyOps (normText "normalize") supported_operations
      = .ok [{ operation := "normalize", parameters := [("target_db", PVal.f (-20))],
               confidence := 1,
               description := "Normalize audio levels to target dB" }] := by decide
  unfold parse_natural_language
  rw [hid]
  apply congrArg Except.ok
  unfold normalizeParseResult
  simp only [ParseResult.mk.injEq]
  refine ⟨rfl, ?_, by decide⟩
  have hs : sortByConfidenceDesc
      [{ operation := "normalize", parameters := [("target_db", PVal.f (-20))],
         confidence := 1,
         description := "Normalize audio levels to target dB" }]
      = [{ operation := "normalize", parameters := [("target_db", PVal.f (-20))],
           confidence := 1,
           description := "Normalize audio levels to target dB" }] := rfl
  rw [hs]
  simp

/-- Witness for `C6_resolver_confidence` at the concrete text
`"normalize"`. -/
theorem C6_resolver_confidence_witness :
    (∀ c ∈ normalizeParseResult.operations,
        (occursIn c.operation (normText "normalize") = true ∧ c.confidence = 1) ∨
        (occursIn c.operation (normText "normalize") = false ∧ c.confidence = (0.9 : Rat) ∧
          ∃ i : OpInfo, (c.operation, i) ∈ supported_operations ∧
            ∃ a ∈ i.aliases, occursIn a (normText "normalize") = true)) ∧
    (normalizeParseResult.operations.map (fun c => c.operation)).Nodup ∧
    (normalizeParseResult.operations ≠ [] →
      normalizeParseResult.confidence
        = ((normalizeParseResult.operations.map (fun c => c.confidence)).sum)
            / (normalizeParseResult.operations.length : Rat)) ∧
    (normalizeParseResult.operations = [] → normalizeParseResult.confidence = 0) :=
  C6_resolver_confidence "normalize" normalizeParseResult parse_normalize_eval

/-- C6 counterexample: the resolver does *not* return normally for every
text.  On `"slow down by 0x"` the `change_speed` alias `"slow down"`
matches, the ratio pattern captures `0`, and the extraction computes
`speed = 1 / 0.0` — a `ZeroDivisionError` in CPython, so
`parse_natural_language` raises instead of returning. -/
theorem C6_zero_division_cex :
    parse_natural_language "slow down by 0x"
      = .error ("ZeroDivisionError: float division by zero") := rfl

theorem toLower_ne_B (c : Char) : c.toLower ≠ 'B' := by
  unfold Char.toLower
  dsimp only
  split
  · rename_i h
    obtain ⟨h1, h2⟩ := h
    intro he
    have h66 : (Char.ofNat (Char.toNat c + 32)).toNat = 66 := by rw [he]; rfl
    generalize hm : Char.toNat c = m at h1 h2 h66
    interval_cases m <;> exact absurd h66 (by decide)
  · intro he
    rename_i h
    apply h
    rw [he]
    exact ⟨by decide, by decide⟩

theorem dbTail_mem_B (l r : List Char) (h : dbTail l = some r) : 'B' ∈ l := by
  unfold dbTail at h
  split at h
  · rename_i r1 heq
    have hmem : 'B' ∈ dropSpaces l := by
      rw [heq]
      exact List.mem_cons_of_mem _ (List.mem_cons_self _ _)
    exact (List.dropWhile_sublist pySpace).mem hmem
  · cases h

theorem matchDigitsAt_rest_sublist (l : List Char) (n : Nat) (r : List Char)
    (h : matchDigitsAt l = some (n, r)) : List.Sublist r l := by
  unfold matchDigitsAt at h
  split at h
  · cases h
  · cases h
    exact List.dropWhile_sublist _

theorem matchFracAt_rest_sublist (l : List Char) (q : Rat) (r : List Char)
    (h : matchFracAt l = some (q, r)) : List.Sublist r l := by
  unfold matchFracAt at h
  split at h
  · rename_i r0
    split at h
    · cases h
    · cases h
      exact (List.dropWhile_sublist _).cons '.'
  · cases h

theorem numCore_dbTail_mem_B (frac : Bool) (l : List Char) (v : Rat) (r : List Char)
    (h : numCore frac dbTail l = some (v, r)) : 'B' ∈ l := by
  unfold numCore at h
  cases hdig : matchDigitsAt l with
  | none => rw [hdig] at h; cases h
  | some p =>
    obtain ⟨n, r1⟩ := p
    rw [hdig] at h
    have hs1 := matchDigitsAt_rest_sublist l n r1 hdig
    cases frac with
    | false =>
      simp only [Bool.false_eq_true, if_false] at h
      cases ht : dbTail r1 with
      | none => rw [ht] at h; cases h
      | some r3 =>
        exact hs1.mem (dbTail_mem_B r1 r3 ht)
    | true =>
      simp only [if_true] at h
      cases hfr : matchFracAt r1 with
      | none =>
        rw [hfr] at h
        cases ht : dbTail r1 with
        | none => rw [ht] at h; cases h
        | some r3 => exact hs1.mem (dbTail_mem_B r1 r3 ht)
      | some p2 =>
        obtain ⟨fv, r2⟩ := p2
        have hs2 := matchFracAt_rest_sublist r1 fv r2 hfr
        cases ht2 : dbTail r2 with
        | some r3 => exact hs1.mem (hs2.mem (dbTail_mem_B r2 r3 ht2))
        | none =>
          simp only [hfr, ht2] at h
          cases ht1 : dbTail r1 with
          | none => rw [ht1] at h; cases h
          | some r3 => exact hs1.mem (dbTail_mem_B r1 r3 ht1)

theorem dbMatchAt_mem_B (l : List Char) (v : Rat) (r : List Char)
    (h : dbMatchAt l = some (v, r)) : 'B' ∈ l := by
  unfold dbMatchAt at h
  cases l with
  | nil => exact numCore_dbTail_mem_B true [] v r h
  | cons c rest =>
    rw [matchNumTailAt] at h
    by_cases hc : (true && (c == '-')) = true
    · rw [if_pos hc] at h
      cases h2 : numCore true dbTail rest with
      | none => rw [h2] at h; cases h
      | some p =>
        obtain ⟨v2, r2⟩ := p
        exact List.mem_cons_of_mem _ (numCore_dbTail_mem_B true rest v2 r2 h2)
    · rw [if_neg hc] at h
      exact numCore_dbTail_mem_B true (c :: rest) v r h

theorem searchDb_none_of_no_B (l : List Char) (hB : ¬ 'B' ∈ l) : searchDb l = none := by
  unfold searchDb
  suffices hs : reSearch dbMatchAt l = none by rw [hs]; rfl
  induction l with
  | nil => rfl
  | cons c rest ih =>
    rw [reSearch]
    cases h : dbMatchAt (c :: rest) with
    | some x =>
      obtain ⟨v, r⟩ := x
      exact absurd (dbMatchAt_mem_B _ v r h) hB
    | none =>
      simp only [h]
      exact ih (fun hm => hB (List.mem_cons_of_mem _ hm))

theorem no_B_normText (text : String) : ¬ 'B' ∈ normText text := by
  intro h
  unfold normText pyStrip at h
  rw [List.mem_reverse] at h
  have h2 := (List.dropWhile_sublist pySpace).mem h
  rw [List.mem_reverse] at h2
  have h3 := (List.dropWhile_sublist pySpace).mem h2
  obtain ⟨a, _, ha⟩ := List.mem_map.mp h3
  exact toLower_ne_B a ha

theorem extract_normalize_default (t : List Char) (h : searchDb t = none) :
    extract_parameters t "normalize" = .ok [("target_db", PVal.f (-20))] := by
  have e : extract_parameters t "normalize"
      = (match searchDb t with
         | some v => .ok [("target_db", PVal.f v)]
         | none => .ok [("target_db", PVal.f (-20))]) := rfl
  rw [e, h]

/-- C10, confirmed.  Whenever the resolver recognises `normalize` in a text,
the extracted `target_db` is the default `-20.0`, whatever decibel value the
text spells: `parse_natural_language` lowercases the text first, the
decibel pattern demands the case-sensitive literal `dB`, and no lowercased
character is an uppercase `B`, so `re.search` never matches and the default
branch always runs. -/
theorem C10_normalize_target_db_default (text : String) (r : ParseResult) (c : Candidate)
    (h : parse_natural_language text = .ok r) (hc : c ∈ r.operations)
    (hop : c.operation = "normalize") :
    c.parameters = [("target_db", PVal.f (-20))] := by
  obtain ⟨ops, hops, hopseq, _⟩ := parse_ok_elim text r h
  rw [hopseq] at hc
  have hmem : c ∈ ops := (sortByConfidenceDesc_perm ops).mem_iff.mp hc
  obtain ⟨i, _, hcf⟩ := identifyOps_sound supported_operations (normText text) ops hops c hmem
  have hext := (candidateFor_ok_some _ _ _ _ hcf).2.2
  rw [hop] at hext
  rw [extract_normalize_default _ (searchDb_none_of_no_B _ (no_B_normText text))] at hext
  injection hext with h2
  exact h2.symm

/-- Witness for `C10_normalize_target_db_default` on the text
`"normalize"`. -/
theorem C10_normalize_target_db_default_witness :
    ({ operation := "normalize", parameters := [("target_db", PVal.f (-20))],
       confidence := 1,
       description := "Normalize audio levels to target dB" } : Candidate).parameters
      = [("target_db", PVal.f (-20))] :=
  C10_normalize_target_db_default "normalize" normalizeParseResult
    { operation := "normalize", parameters := [("target_db", PVal.f (-20))],
      confidence := 1, description := "Normalize audio levels to target dB" }
    parse_normalize_eval (by decide) rfl

theorem runChain_error_prefix {α : Type} (pydub : String → ChainOp → α → Except String α)
    (pre : List ChainOp) (a0 afterPre : α)
    (hpre : runChain pydub a0 pre = .ok afterPre) (bad : ChainOp) (rest : List ChainOp)
    (e : String) (hbad : applyChainStep pydub afterPre bad = .error e) :
    runChain pydub a0 (pre ++ bad :: rest) = .error e := by
  induction pre generalizing a0 with
  | nil =>
    cases hpre
    rw [List.nil_append, runChain, hbad]
  | cons op ops ih =>
    rw [List.cons_append, runChain]
    rw [runChain] at hpre
    cases happ : applyChainStep pydub a0 op with
    | error e2 => rw [happ] at hpre; cases hpre
    | ok a1 =>
      rw [happ] at hpre
      exact ih a1 hpre

theorem worker_chain_error_publishes {α : Type}
    (pydub : String → ChainOp → α → Except String α)
    (loadFile : String → Except String α) (exportFile : String → α → Except String Unit)
    (singleOp : String → WorkerPayload → Except String WorkerResult)
    (q : WorkerPayload) (freshId : String)
    (pre : List ChainOp) (bad : ChainOp) (rest : List ChainOp)
    (a0 afterPre : α) (e : String)
    (hop : q.operation = some "process_operations")
    (hops : q.chain_ops = pre ++ bad :: rest)
    (hload : loadFile ((q.audio_data).getD ("")) = .ok a0)
    (hpre : runChain pydub a0 pre = .ok afterPre)
    (hbad : applyChainStep pydub afterPre bad = .error e) :
    process_single_request pydub loadFile exportFile singleOp q freshId =
      [.status ⟨(q.request_id).getD freshId, "processing", "Processing audio file..."⟩,
       .status ⟨(q.request_id).getD freshId, "error", "Error: " ++ e⟩] := by
  have hrun := runChain_error_prefix pydub pre a0 afterPre hpre bad rest e hbad
  have hpo : process_operations pydub loadFile exportFile ((q.audio_data).getD ("")) q.chain_ops
      = .error e := by
    unfold process_operations
    rw [hops]
    have hne : ((pre ++ bad :: rest).isEmpty) = false := by cases pre <;> rfl
    simp only [hne, Bool.false_eq_true, if_false, hload, hrun]
  have hc1 : mcpServerOperationNames.contains "process_operations" = true := by decide
  have hc2 : (("process_operations" : String) == "process_operations") = true := by decide
  have hexec : execute_audio_operation pydub loadFile exportFile singleOp q = .error e := by
    unfold execute_audio_operation
    rw [hop]
    dsimp only
    simp only [hc1, hc2, if_true, hpo]
  unfold process_single_request
  rw [hexec]

/-- C7, amended.  When a worker executes a request's chain and a step fails,
it publishes a terminal status event whose status field is the string
`"error"` — not `"failed"` — carrying the error message
(`f"Error: {str(e)}"`) for that request, and the outcome is independent of
the steps after the first failing one (they are never attempted: the chain
loop stops at the first raise). -/
theorem C7_worker_error_not_failed {α : Type}
    (pydub : String → ChainOp → α → Except String α)
    (loadFile : String → Except String α) (exportFile : String → α → Except String Unit)
    (singleOp : String → WorkerPayload → Except String WorkerResult)
    (payload : WorkerPayload) (freshId : String)
    (pre : List ChainOp) (bad : ChainOp) (rest : List ChainOp)
    (a0 afterPre : α) (e : String)
    (hop : payload.operation = some "process_operations")
    (hops : payload.chain_ops = pre ++ bad :: rest)
    (hload : loadFile ((payload.audio_data).getD ("")) = .ok a0)
    (hpre : runChain pydub a0 pre = .ok afterPre)
    (hbad : applyChainStep pydub afterPre bad = .error e) :
    process_single_request pydub loadFile exportFile singleOp payload freshId =
      [.status ⟨(payload.request_id).getD freshId, "processing", "Processing audio file..."⟩,
       .status ⟨(payload.request_id).getD freshId, "error", "Error: " ++ e⟩] ∧
    ∀ rest2 : List ChainOp,
      process_single_request pydub loadFile exportFile singleOp
        { payload with chain_ops := pre ++ bad :: rest2 } freshId
        = process_single_request pydub loadFile exportFile singleOp payload freshId := by
  have h1 := worker_chain_error_publishes pydub loadFile exportFile singleOp payload freshId
    pre bad rest a0 afterPre e hop hops hload hpre hbad
  refine ⟨h1, ?_⟩
  intro rest2
  have h2 := worker_chain_error_publishes pydub loadFile exportFile singleOp
    { payload with chain_ops := pre ++ bad :: rest2 } freshId
    pre bad rest2 a0 afterPre e hop rfl hload hpre hbad
  rw [h1, h2]

/-- A chain step naming the recognised `trim` operation. -/
def opTrim : ChainOp := { name := some ("trim") }

/-- A chain step naming the recognised `fade_in` operation. -/
def opFadeIn : ChainOp := { name := some ("fade_in") }

/-- A chain step whose name the worker's chain loop does not recognise. -/
def opFrob : ChainOp := { name := some ("frobnicate") }

/-- A job payload whose chain fails at its second step. -/
def cexWorkerPayload : WorkerPayload :=
  { request_id := some ("req9"), operation := some ("process_operations"),
    audio_data := some ("a.wav"), chain_ops := [opTrim, opFrob, opFadeIn] }

/-- A pydub stand-in whose every call succeeds. -/
def pydubOk : String → ChainOp → Nat → Except String Nat := fun _ _ a => .ok a

/-- A file loader stand-in that always succeeds. -/
def loadOk : String → Except String Nat := fun _ => .ok 0

/-- An exporter stand-in that always succeeds. -/
def exportOk : String → Nat → Except String Unit := fun _ _ => .ok ()

/-- A single-operation handler stand-in that always succeeds. -/
def singleOpOk : String → WorkerPayload → Except String WorkerResult :=
  fun _ _ => .ok (.single ("dsp"))

/-- Witness for `C7_worker_error_not_failed`: a concrete three-step chain
failing at its second step, with the not-attempted suffix replaced by a
different one. -/
theorem C7_worker_error_not_failed_witness :
    process_single_request pydubOk loadOk exportOk singleOpOk cexWorkerPayload "fresh" =
      [.status ⟨"req9", "processing", "Processing audio file..."⟩,
       .status ⟨"req9", "error", "Error: Unsupported operation: frobnicate"⟩] ∧
    process_single_request pydubOk loadOk exportOk singleOpOk
        { cexWorkerPayload with chain_ops := [opTrim, opFrob] } "fresh"
      = process_single_request pydubOk loadOk exportOk singleOpOk cexWorkerPayload "fresh" :=
  ⟨(C7_worker_error_not_failed pydubOk loadOk exportOk singleOpOk cexWorkerPayload "fresh"
      [opTrim] opFrob [opFadeIn] 0 0 "Unsupported operation: frobnicate"
      rfl rfl rfl rfl rfl).1,
   (C7_worker_error_not_failed pydubOk loadOk exportOk singleOpOk cexWorkerPayload "fresh"
      [opTrim] opFrob [opFadeIn] 0 0 "Unsupported operation: frobnicate"
      rfl rfl rfl rfl rfl).2 []⟩

/-- C7 counterexample: on a chain whose second step fails, the worker's
published status events are `processing` then `error` — no event with
status `"failed"` is ever published, though the claim requires one. -/
theorem C7_no_failed_status_cex :
    process_single_request pydubOk loadOk exportOk singleOpOk cexWorkerPayload "fresh" =
      [.status ⟨"req9", "processing", "Processing audio file..."⟩,
       .status ⟨"req9", "error", "Error: Unsupported operation: frobnicate"⟩] ∧
    ("error" : String) ≠ "failed" := by
  refine ⟨by decide, by decide⟩
